import Mathlib

/-!
Verification development for the vod-downloader core (src/app.py):
a shallow embedding of the job queue, download worker, persistent
download-record store and filename matcher, together with theorems
settling the specification claims about them.

Modelling conventions:
* Python strings are Lean `String`s (character-level operations work on
  `String.data : List Char`); digits and whitespace are modelled at the
  ASCII level, matching the ASCII filenames the system manipulates.
* Machine-level concerns (uuid values for job ids) are modelled by a
  fresh-id counter: job ids are `Nat`, freshness is what the code relies
  on.
* Filesystem and JSON effects are modelled explicitly: the backing file
  is a value of type `Option (List (String × DRecord))`, JSON parsing is
  an explicit parameter, and the success of a filesystem write is an
  explicit boolean capturing the environment.
-/

/-- Python `\s` whitespace characters (ASCII range, as used by
`str.strip()` and the regexes of app.py on ASCII filenames). -/
def isPySpace (c : Char) : Bool :=
  c = ' ' || c = '\t' || c = '\n' || c = '\r' || c = '\x0b' || c = '\x0c'

/-- Python `str.strip()`: drop whitespace from both ends. -/
def pythonStrip (s : String) : String :=
  String.mk (((s.data.dropWhile isPySpace).reverse.dropWhile isPySpace).reverse)

/-- The characters removed by `sanitize_filename` (regex `[<>:"/\\|?*]`). -/
def isIllegalPathChar (c : Char) : Bool :=
  c = '<' || c = '>' || c = ':' || c = '"' || c = '/' || c = '\\' ||
  c = '|' || c = '?' || c = '*'

/-- Function `sanitize_filename` from app.py: remove characters illegal in
filesystem paths, then strip whitespace. -/
def sanitize_filename (name : String) : String :=
  pythonStrip (String.mk (name.data.filter (fun c => !isIllegalPathChar c)))

/-- Index of the last '.' in a character list, if any. -/
def lastDotIdx (cs : List Char) : Option Nat :=
  (cs.reverse.findIdx? (fun c => c = '.')).map (fun k => cs.length - 1 - k)

/-- The base part `os.path.splitext(s)[0]` for a plain file name (no directory
separators): split at the last dot, except that a name consisting only
of leading dots before that dot is not split (CPython's rule). -/
def splitextBase (s : String) : String :=
  match lastDotIdx s.data with
  | none => s
  | some i =>
    if (s.data.take i).all (fun c => c = '.') then s
    else String.mk (s.data.take i)

/-- Characters collapsed by the regex `[_\-\s]+` in
`normalize_filename_for_matching`. -/
def isSepChar (c : Char) : Bool :=
  c = '_' || c = '-' || isPySpace c

/-- Helper for `collapseSeps`: the flag records whether the previous
character belonged to a separator run already replaced by a space. -/
def collapseSepsAux : Bool → List Char → List Char
  | _, [] => []
  | inSep, c :: rest =>
    if isSepChar c then
      if inSep then collapseSepsAux true rest
      else ' ' :: collapseSepsAux true rest
    else c :: collapseSepsAux false rest

/-- Replace every maximal run of separator characters by a single
space (the effect of `re.sub(r'[_\-\s]+', ' ', base)`). -/
def collapseSeps (cs : List Char) : List Char :=
  collapseSepsAux false cs

/-- Function `normalize_filename_for_matching` from app.py: strip the extension,
lowercase (character-wise, the ASCII effect of `str.lower()`), collapse
separator runs to single spaces, trim. -/
def normalize_filename_for_matching (filename : String) : String :=
  pythonStrip (String.mk (collapseSeps ((splitextBase filename).data.map Char.toLower)))

/-- Numeric value of a digit string, as `int()` computes it. -/
def digitsToNat (ds : List Char) : Nat :=
  ds.foldl (fun n c => n * 10 + (c.toNat - 48)) 0

/-- Attempt to match the regex `S(\d+)E(\d+)` (case-insensitive) at the
head of the character list; on success return (season, episode).
Because the digit class is disjoint from `E`/`e`, the greedy `\d+`
groups are exactly the maximal digit runs. -/
def matchSEAt : List Char → Option (Nat × Nat)
  | [] => none
  | a :: rest =>
    if a = 'S' ∨ a = 's' then
      let ds := rest.takeWhile (fun c => c.isDigit)
      let rest2 := rest.dropWhile (fun c => c.isDigit)
      if ds.isEmpty then none
      else
        match rest2 with
        | [] => none
        | b :: rest3 =>
          if b = 'E' ∨ b = 'e' then
            let es := rest3.takeWhile (fun c => c.isDigit)
            if es.isEmpty then none else some (digitsToNat ds, digitsToNat es)
          else none
    else none

/-- The search `re.search(r'S(\d+)E(\d+)', base, re.IGNORECASE)`: scan positions
left to right and take the first match. -/
def searchSE : List Char → Option (Nat × Nat)
  | [] => none
  | c :: cs =>
    match matchSEAt (c :: cs) with
    | some r => some r
    | none => searchSE cs

/-- Does `cs` begin with a match of `\s*-\s*S\d+E\d+`?  The whitespace
classes are disjoint from '-' and from 'S'/'s', so the greedy `\s*`
consume exactly the maximal whitespace runs. -/
def matchDashSE (cs : List Char) : Bool :=
  match cs.dropWhile isPySpace with
  | '-' :: cs2 => (matchSEAt (cs2.dropWhile isPySpace)).isSome
  | _ => false

/-- The lazy group of `re.search(r'^(.+?)\s*-\s*S\d+E\d+', base)`:
grow a nonempty prefix one character at a time (smallest first, the lazy
`(.+?)` semantics) until the remainder begins with `\s*-\s*S\d+E\d+`;
`.` does not match a newline. -/
def seriesGo (acc : List Char) : List Char → Option (List Char)
  | [] => none
  | c :: rest =>
    if c = '\n' then none
    else if matchDashSE rest then some (c :: acc).reverse
    else seriesGo (c :: acc) rest

/-- The value `series_match.group(1).strip()` when the series regex matches. -/
def seriesSearch (cs : List Char) : Option String :=
  (seriesGo [] cs).map (fun g => pythonStrip (String.mk g))

/-- Classification of a parsed filename (the `type` key of the dicts
returned by `extract_episode_info`). -/
inductive MediaType where
  | movie
  | episode
deriving DecidableEq, Repr

/-- The dictionary returned by `extract_episode_info`; keys absent in a
branch are modelled as `none` (Python `.get` on a missing key). -/
structure ParsedInfo where
  ptype : MediaType
  season : Option Nat
  episode : Option Nat
  series_name : Option String
  normalized_series : Option String
  normalized_name : Option String
deriving DecidableEq, Repr

/-- Function `extract_episode_info` from app.py: strip the extension; if the
base contains `S<digits>E<digits>` (case-insensitive), classify as an
episode with the first match's numbers, extracting the series name from
the `^(.+?)\s*-\s*S\d+E\d+` regex when it matches (note that this
second regex requires a literal '-' before the pattern); otherwise
classify as a movie keyed by the normalized base.  Following the
source, `normalized_series` is `None` when the stripped series name is
falsy. -/
def extract_episode_info (filename : String) : ParsedInfo :=
  let base := splitextBase filename
  match searchSE base.data with
  | some (s, e) =>
    let sname := seriesSearch base.data
    { ptype := .episode
      season := some s
      episode := some e
      series_name := sname
      normalized_series :=
        match sname with
        | none => none
        | some n => if n = "" then none else some (normalize_filename_for_matching n)
      normalized_name := none }
  | none =>
    { ptype := .movie
      season := none
      episode := none
      series_name := none
      normalized_series := none
      normalized_name := some (normalize_filename_for_matching base) }


/-! ## Job queue model

The queue subsystem of app.py: `JOB_QUEUE` (a deque of job dicts),
`QUEUED_ITEMS` (a set of item ids) and `DOWNLOADED_ITEMS` (whose key
set gates enqueue).  The Python set is modelled as a duplicate-free
`List String` with membership-based insert and erase; job ids
(`str(uuid.uuid4())` in the source) are modelled by a fresh-id counter
`nextId`, freshness being the property the code relies on. -/

/-- Configuration constants of app.py (the defaults of the `os.getenv`
calls; the claims do not depend on their values). -/
def XC_URL : String := "http://provider-url.com:8080"

def XC_USER : String := "username"

def XC_PASS : String := "password"

def DOWNLOAD_PATH : String := "/downloads"

/-- A job dict as built by `queue_item` / `queue_entire_series`. -/
structure Job where
  id : Nat
  url : String
  filepath : String
  display_name : String
  kind : String
  item_id : String
deriving DecidableEq, Repr

/-- The queue-side shared state: `JOB_QUEUE`, `QUEUED_ITEMS`, the key
set of `DOWNLOADED_ITEMS`, and the fresh-id counter. -/
structure QState where
  queue : List Job
  queuedItems : List String
  downloaded : List String
  nextId : Nat
deriving DecidableEq, Repr

/-- The state at startup: empty queue, empty membership set, empty
downloaded database. -/
def initialQState : QState := ⟨[], [], [], 0⟩

/-- Python `set.add` on the list-as-set representation. -/
def setInsert (l : List String) (a : String) : List String :=
  if a ∈ l then l else a :: l

/-- Python `set.discard` on the list-as-set representation (removes
the element when present). -/
def setErase (l : List String) (a : String) : List String :=
  l.erase a

/-- Outcome of an enqueue attempt.  The three branches of `queue_item`
are distinguished by control flow in the source (early return on
queued, early return on downloaded, append otherwise); this is the
transport-agnostic outcome of §6 of the spec. -/
inductive EnqueueOutcome where
  | added (jobId : Nat)
  | alreadyQueued
  | alreadyDownloaded
deriving DecidableEq, Repr

/-- The state change shared by both enqueue paths: append the job and
record its item id in the membership set (done under `QUEUE_LOCK` in
the source), consuming one fresh id. -/
def enqueueJob (st : QState) (job : Job) : QState :=
  { st with
      queue := st.queue ++ [job]
      queuedItems := setInsert st.queuedItems job.item_id
      nextId := st.nextId + 1 }

/-- The job dict `queue_item` builds (pure name/url computation).
`title` is the optional `title` query parameter; a falsy title (absent
or empty) falls back to the raw id. -/
def queue_item_job (st : QState) (kind idStr : String) (title : Option String)
    (ext : String) : Job :=
  let item_id := kind ++ ":" ++ idStr
  let safe_name :=
    match title with
    | some t => if t = "" then idStr else sanitize_filename t
    | none => idStr
  let filename := safe_name ++ "." ++ ext
  let local_path := DOWNLOAD_PATH ++ "/" ++ filename
  let url :=
    if kind = "movie" then
      XC_URL ++ "/movie/" ++ XC_USER ++ "/" ++ XC_PASS ++ "/" ++ idStr ++ "." ++ ext
    else
      XC_URL ++ "/series/" ++ XC_USER ++ "/" ++ XC_PASS ++ "/" ++ idStr ++ "." ++ ext
  ⟨st.nextId, url, local_path, safe_name, kind, item_id⟩

/-- Function `queue_item` from app.py: check `QUEUED_ITEMS`, then
`DOWNLOADED_ITEMS`, then build the job and append it, recording
membership. -/
def queue_item (st : QState) (kind idStr : String) (title : Option String)
    (ext : String) : EnqueueOutcome × QState :=
  let item_id := kind ++ ":" ++ idStr
  if item_id ∈ st.queuedItems then (.alreadyQueued, st)
  else if item_id ∈ st.downloaded then (.alreadyDownloaded, st)
  else (.added st.nextId, enqueueJob st (queue_item_job st kind idStr title ext))

/-- An episode entry of the series-info payload, with the fields
`queue_entire_series` reads (season / episode numbers are kept as the
strings interpolated into the file name). -/
structure Ep where
  epId : String
  title : String
  season : String
  episode_num : String
  container_extension : String
deriving DecidableEq, Repr

/-- The job dict one `queue_entire_series` iteration builds (the pure
file-name and url computation, which in the source happens between the
two membership checks but touches no state). -/
def series_ep_job (st : QState) (safe_series_name season_num : String)
    (ep : Ep) : Job :=
  let item_id := "series:" ++ ep.epId
  let ep_title := pythonStrip (ep.title.replace (season_num ++ "|" ++ ep.episode_num) "")
  let full_name := safe_series_name ++ " - S" ++ ep.season ++ "E" ++ ep.episode_num
    ++ " - " ++ ep_title
  let safe_full_name := sanitize_filename full_name
  let filename := safe_full_name ++ "." ++ ep.container_extension
  let local_path := DOWNLOAD_PATH ++ "/" ++ filename
  let url := XC_URL ++ "/series/" ++ XC_USER ++ "/" ++ XC_PASS ++ "/" ++ ep.epId
    ++ "." ++ ep.container_extension
  ⟨st.nextId, url, local_path, safe_full_name, "series", item_id⟩

/-- One episode iteration of the `queue_entire_series` loop: skip if
queued, skip if downloaded, else append and count. -/
def series_ep_step (safe_series_name season_num : String) (st : QState)
    (ep : Ep) : QState × Bool :=
  let item_id := "series:" ++ ep.epId
  if item_id ∈ st.queuedItems then (st, false)
  else if item_id ∈ st.downloaded then (st, false)
  else (enqueueJob st (series_ep_job st safe_series_name season_num ep), true)

/-- One episode of the `queue_entire_series` loop together with the
`added_count` bookkeeping. -/
def series_ep_fold (safe_series_name season_num : String) (acc : QState × Nat)
    (ep : Ep) : QState × Nat :=
  let r := series_ep_step safe_series_name season_num acc.1 ep
  (r.1, acc.2 + (if r.2 then 1 else 0))

/-- Function `queue_entire_series` from app.py: fold over the season groups and
their episodes, returning the new state and the added count. -/
def queue_entire_series (st : QState) (series_name : String)
    (episodes : List (String × List Ep)) : QState × Nat :=
  let safe_series_name := sanitize_filename series_name
  episodes.foldl
    (fun acc se => se.2.foldl (series_ep_fold safe_series_name se.1) acc)
    (st, 0)

/-- The dequeue step of `worker_loop` (taken under `QUEUE_LOCK`): pop
the head job and discard its item id from the membership set (the
source guards the discard with the truthiness of `item_id`). -/
def worker_dequeue (st : QState) : Option Job × QState :=
  match st.queue with
  | [] => (none, st)
  | job :: rest =>
    (some job,
      { st with
          queue := rest
          queuedItems :=
            if job.item_id ≠ "" then setErase st.queuedItems job.item_id
            else st.queuedItems })

/-- Function `queue_remove` from app.py: find the first job with the given id,
remove that element, and discard its item id from the membership set.
Returns whether a job was found. -/
def queue_remove (st : QState) (jobId : Nat) : Bool × QState :=
  match st.queue.find? (fun j => j.id == jobId) with
  | none => (false, st)
  | some j =>
    (true,
      { st with
          queue := st.queue.erase j
          queuedItems :=
            if j.item_id ≠ "" then setErase st.queuedItems j.item_id
            else st.queuedItems })

/-- Function `queue_clear` from app.py: empty the queue and the membership set. -/
def queue_clear (st : QState) : QState :=
  { st with queue := [], queuedItems := [] }

/-- The `job_map` lookup of `queue_reorder`: the dict comprehension
`{job['id']: job for job in JOB_QUEUE}` keeps the last occurrence of a
duplicated id, so the lookup prefers later queue entries. -/
def jobMapFind : List Job → Nat → Option Job
  | [], _ => none
  | j :: rest, i =>
    match jobMapFind rest i with
    | some r => some r
    | none => if j.id = i then some j else none

/-- Function `queue_reorder` from app.py: first the jobs whose ids appear in the
requested order (in that order, via the `job_map` lookup), then the
jobs whose ids are not mentioned, in their prior relative order. -/
def queue_reorder (st : QState) (order : List Nat) : QState :=
  let part1 := order.filterMap (fun i => jobMapFind st.queue i)
  let part2 := st.queue.filter (fun j => decide (j.id ∉ order))
  { st with queue := part1 ++ part2 }

/-- Effect of `mark_item_downloaded` on the queue-side view of
`DOWNLOADED_ITEMS` (for a truthy item id the key is inserted into the
in-memory map unconditionally, whatever the save outcome). -/
def mark_downloaded_key (st : QState) (item_id : String) : QState :=
  { st with downloaded := setInsert st.downloaded item_id }

/-- The queue operations quantified over by the uniqueness invariant:
enqueue (single item and whole series), the worker's dequeue, removal,
clearing, and reordering. -/
inductive QOp where
  | enqueue (kind idStr : String) (title : Option String) (ext : String)
  | enqueueSeries (series_name : String) (episodes : List (String × List Ep))
  | dequeue
  | removeJob (jobId : Nat)
  | clearQueue
  | reorder (order : List Nat)

/-- Apply one queue operation to the state. -/
def applyQOp (st : QState) : QOp → QState
  | .enqueue k i t e => (queue_item st k i t e).2
  | .enqueueSeries n eps => (queue_entire_series st n eps).1
  | .dequeue => (worker_dequeue st).2
  | .removeJob j => (queue_remove st j).2
  | .clearQueue => queue_clear st
  | .reorder o => queue_reorder st o

/-- Run a sequence of queue operations from a state. -/
def runQOps (st : QState) (ops : List QOp) : QState :=
  ops.foldl applyQOp st

/-- A reorder request is well-formed when its id list has no
duplicates; all other operations are unconstrained. -/
def qopOk : QOp → Bool
  | .reorder o => decide o.Nodup
  | _ => true


/-! ## Persistent store model

`DOWNLOADED_ITEMS` with its backing JSON file.  The in-memory mapping
is an insertion-ordered association list (Python dict); the backing
file is `Option (List (String × DRecord))` (`none` = absent).  The
environment's willingness to complete a durable write (directory
writable, temp-file write and rename succeed) is a boolean `saveOk`;
on failure the prior file is untouched, which is exactly what the
temp-file-then-`os.replace` sequence of `save_downloaded_items`
guarantees. -/

/-- A `DownloadRecord` value of `DOWNLOADED_ITEMS`; `size_mb` is kept
in hundredths of a MiB (the source stores `round(bytes/2^20, 2)`). -/
structure DRecord where
  downloaded_at : Nat
  filename : String
  size_mb : Nat
deriving DecidableEq, Repr

/-- The value `round(bytes / (1024*1024), 2)` in hundredths of a MiB
(round-to-nearest; the tie direction is irrelevant to the claims). -/
def roundMb2 (bytes : Nat) : Nat :=
  (bytes * 100 + 524288) / 1048576

/-- Python dict update `d[k] = v`: replace in place if the key exists
(keeping its position), else append. -/
def dictUpsert : List (String × DRecord) → String → DRecord → List (String × DRecord)
  | [], k, v => [(k, v)]
  | (k0, v0) :: rest, k, v =>
    if k0 = k then (k0, v) :: rest
    else (k0, v0) :: dictUpsert rest k v

/-- Python dict lookup `d.get(k)`. -/
def dictLookup : List (String × DRecord) → String → Option DRecord
  | [], _ => none
  | (k0, v0) :: rest, k => if k0 = k then some v0 else dictLookup rest k

/-- Function `save_downloaded_items` from app.py: when the environment lets the
temp-file write and atomic rename complete (`saveOk`), the backing file
becomes the serialized current mapping and the call reports success;
on any failure (unwritable directory, write or rename error) it reports
failure and the backing file keeps its prior contents. -/
def save_downloaded_items (saveOk : Bool) (items : List (String × DRecord))
    (disk : Option (List (String × DRecord))) :
    Bool × Option (List (String × DRecord)) :=
  if saveOk then (true, some items) else (false, disk)

/-- Result of a `mark_item_downloaded` call: return value, in-memory
mapping, backing file, and whether `save_downloaded_items` was called
at all. -/
structure MarkResult where
  ok : Bool
  items : List (String × DRecord)
  disk : Option (List (String × DRecord))
  saveCalled : Bool
deriving DecidableEq, Repr

/-- Function `mark_item_downloaded` from app.py.  `item_id` is `Option String`
(`None` possible); a falsy id returns `False` immediately.  Otherwise
the record (current time, file name, size computed from the optional
existing file's byte size) is upserted into the in-memory mapping, and
the result of `save_downloaded_items` is returned. -/
def mark_item_downloaded (saveOk : Bool) (now : Nat)
    (items : List (String × DRecord)) (disk : Option (List (String × DRecord)))
    (item_id : Option String) (filename : String)
    (fileSizeBytes : Option Nat) : MarkResult :=
  match item_id with
  | none => ⟨false, items, disk, false⟩
  | some iid =>
    if iid = "" then ⟨false, items, disk, false⟩
    else
      let file_size_mb := match fileSizeBytes with
        | some b => roundMb2 b
        | none => 0
      let items2 := dictUpsert items iid ⟨now, filename, file_size_mb⟩
      let r := save_downloaded_items saveOk items2 disk
      ⟨r.1, items2, r.2, true⟩

/-- Result of `load_downloaded_items`: the in-memory mapping, the
backing file after the load, and the `.backup` file if one was
created. -/
structure LoadResult where
  items : List (String × DRecord)
  mainFile : Option String
  backupFile : Option String
deriving DecidableEq, Repr

/-- Function `load_downloaded_items` from app.py.  The backing file's bytes are
`fileContent` (`none` = absent; the file-absent branch leaves the
mapping empty — the directory scan it triggers never updates
`DOWNLOADED_ITEMS`, its loop body is `pass`).  JSON parsing is the
explicit parameter `parseJson` (`none` = `json.JSONDecodeError`): on a
parse failure the corrupt file is renamed to `.backup` (silently
skipped if the rename itself fails, per the inner `try/except`) and the
mapping starts empty; no branch raises to the caller. -/
def load_downloaded_items (parseJson : String → Option (List (String × DRecord)))
    (fileContent : Option String) (renameOk : Bool) : LoadResult :=
  match fileContent with
  | none => ⟨[], none, none⟩
  | some content =>
    match parseJson content with
    | some m => ⟨m, some content, none⟩
    | none =>
      if renameOk then ⟨[], none, some content⟩
      else ⟨[], some content, none⟩

/-! ## Download worker transfer model

The chunked transfer of one `worker_loop` iteration after a job has
been dequeued.  The shared flags `QUEUE_STOPPED` / `QUEUE_PAUSED` are
read at discrete poll points; `stopped`/`paused` give the flag values
at each poll, with a counter `t` threading through the iteration
(every flag read advances it).  Chunks are byte counts as produced by
`iter_content(chunk_size=1024*1024)`; a zero chunk is skipped by the
`if chunk:` guard.  The pause wait (`while QUEUE_PAUSED and not
QUEUE_STOPPED: sleep`) can spin forever in the source, so it carries
explicit fuel: `none` means the iteration is still blocked. -/

/-- One boundary check of the transfer loop: the poll time, the value
of `QUEUE_STOPPED` it saw, and whether the chunk was then written. -/
structure ChunkEvent where
  time : Nat
  sawStopped : Bool
  wrote : Bool
deriving DecidableEq, Repr

/-- The pause wait before a chunk write: re-poll while
`paused ∧ ¬stopped`, returning the poll time at which the loop exited
(`none` when the fuel runs out with the flags still blocking). -/
def pauseWait (stopped paused : Nat → Bool) : Nat → Nat → Option Nat
  | 0, t => if paused t && !stopped t then none else some t
  | fuel + 1, t =>
    if paused t && !stopped t then pauseWait stopped paused fuel (t + 1)
    else some t

/-- The `for chunk in r.iter_content(...)` loop: before each chunk,
check `stopped` (break), then wait out `paused`, then write the chunk
if it is nonempty.  Returns the boundary-check events, the written
chunks, and the poll counter after the loop. -/
def transferLoop (stopped paused : Nat → Bool) (fuel : Nat) :
    List Nat → Nat → Option (List ChunkEvent × List Nat × Nat)
  | [], t => some ([], [], t)
  | c :: cs, t =>
    if stopped t then some ([⟨t, true, false⟩], [], t + 1)
    else
      match pauseWait stopped paused fuel (t + 1) with
      | none => none
      | some t2 =>
        match transferLoop stopped paused fuel cs (t2 + 1) with
        | none => none
        | some (evs, ws, tf) =>
          if c ≠ 0 then some (⟨t, false, true⟩ :: evs, c :: ws, tf)
          else some (⟨t, false, false⟩ :: evs, ws, tf)

/-- Result of one worker iteration's transfer phase. -/
structure IterResult where
  events : List ChunkEvent
  written : List Nat
  fileOnDisk : Option (List Nat)
  recorded : Bool
  finalTime : Nat
deriving DecidableEq, Repr

/-- One `worker_loop` iteration from the opening of the destination
file: run the chunk loop, then (the `if not QUEUE_STOPPED:` completion
check, a further flag read at the returned poll time) call
`mark_item_downloaded` iff the flag is clear, the file passes
`check_file_exists` (> 1 MiB on disk) and the job has a truthy item id.
`recorded` is whether that call happens; `fileOnDisk` is the
destination file contents, which no branch deletes. -/
def workerIteration (stopped paused : Nat → Bool) (fuel : Nat)
    (chunks : List Nat) (item_id : String) (t : Nat) : Option IterResult :=
  match transferLoop stopped paused fuel chunks t with
  | none => none
  | some (evs, ws, tf) =>
    some
      { events := evs
        written := ws
        fileOnDisk := some ws
        recorded := !stopped tf && decide (1048576 < ws.sum) && decide (item_id ≠ "")
        finalTime := tf }

/-! ## File matcher model

`SCANNED_FILES` is an insertion-ordered dict from normalized filename
to the scanned record; `match_file_to_item` walks it in order.  The
`TypeError` the source raises when it evaluates `normalized_series in
None` is modelled by `Except.error ()`. -/

/-- A value of `SCANNED_FILES`: the parsed metadata
(`extract_episode_info` output) plus the scan bookkeeping fields. -/
structure ScannedFile where
  info : ParsedInfo
  filename : String
  size_mb : Nat
  scanned_at : Nat
deriving DecidableEq, Repr

/-- The catalog-item fields `match_file_to_item` reads.  Optional
season/episode model missing keys; `underscore_series_name` is the
`_series_name` annotation the episode routes attach. -/
structure CatalogItem where
  name : String
  underscore_series_name : Option String
  series_name : Option String
  season : Option Nat
  episode_num : Option Nat
deriving DecidableEq, Repr

/-- Python truthiness for an optional string. -/
def truthyStr : Option String → Bool
  | none => false
  | some s => s ≠ ""

/-- Python truthiness for an optional number. -/
def truthyNat : Option Nat → Bool
  | none => false
  | some n => n ≠ 0

/-- Contiguous-substring test, Python's `in` on strings (an empty
needle is a substring of anything). -/
def isSubstrList (needle : List Char) : List Char → Bool
  | [] => needle.isEmpty
  | h :: tl => needle.isPrefixOf (h :: tl) || isSubstrList needle tl

/-- The movie condition of `match_file_to_item`: substring relation in
either direction, and the name lengths differ by less than half of the
longer (the source compares `abs(la-lb) < max(la,lb) * 0.5`, which is
exact in floats and equivalent to `2*(max-min) < max` over ℕ). -/
def movieCond (normalized_movie normalized_file : String) : Bool :=
  (isSubstrList normalized_movie.data normalized_file.data ||
    isSubstrList normalized_file.data normalized_movie.data) &&
  decide (2 * (max normalized_movie.length normalized_file.length -
      min normalized_movie.length normalized_file.length) <
    max normalized_movie.length normalized_file.length)

/-- The movie loop of `match_file_to_item`: first entry of movie type
whose key satisfies `movieCond` against the normalized catalog name. -/
def movieLoop (normalized_movie : String) :
    List (String × ScannedFile) → Option ScannedFile
  | [] => none
  | (key, fi) :: rest =>
    if fi.info.ptype = .movie && movieCond normalized_movie key then some fi
    else movieLoop normalized_movie rest

/-- The episode loop of `match_file_to_item`: on an entry of episode
type with equal season and episode numbers, test the series-name
substring relation — raising (`Except.error`) when the scanned entry's
`normalized_series` is `None`, since the source then evaluates
`normalized_series in None`. -/
def episodeLoop (normalized_series : String) (season episode_num : Option Nat) :
    List (String × ScannedFile) → Except Unit (Option ScannedFile)
  | [] => .ok none
  | (_, fi) :: rest =>
    if fi.info.ptype = .episode && fi.info.season == season &&
        fi.info.episode == episode_num then
      match fi.info.normalized_series with
      | none => .error ()
      | some fs =>
        if isSubstrList normalized_series.data fs.data ||
            isSubstrList fs.data normalized_series.data then .ok (some fi)
        else episodeLoop normalized_series season episode_num rest
    else episodeLoop normalized_series season episode_num rest

/-- The value `item.get('_series_name') or item.get('series_name', '')`: the
first truthy of the two series-name fields, defaulting to the empty
string. -/
def itemSeriesName (item : CatalogItem) : String :=
  match item.underscore_series_name with
  | some s => if s ≠ "" then s else (item.series_name.getD "")
  | none => item.series_name.getD ""

/-- Function `match_file_to_item` from app.py.  Reads `SCANNED_FILES` (passed as
the ordered list `scanned`) and the catalog item; mutates nothing (it
is embedded as a pure function).  `Except.error ()` is the `TypeError`
described at `episodeLoop`. -/
def match_file_to_item (scanned : List (String × ScannedFile))
    (item : CatalogItem) (item_type : String) :
    Except Unit (Option ScannedFile) :=
  if scanned.isEmpty then .ok none
  else if item_type = "movie" then
    .ok (movieLoop (normalize_filename_for_matching item.name) scanned)
  else
    if truthyNat item.season && truthyNat item.episode_num &&
        decide (itemSeriesName item ≠ "") then
      episodeLoop (normalize_filename_for_matching (itemSeriesName item))
        item.season item.episode_num scanned
    else .ok none

/-! ## Theorems: persistent store claims (C3, C4, C10) -/

/-- Dict lookup after an upsert of the same key yields the new value. -/
theorem dictLookup_dictUpsert (l : List (String × DRecord)) (k : String)
    (v : DRecord) : dictLookup (dictUpsert l k v) k = some v := by
  induction l with
  | nil => simp [dictUpsert, dictLookup]
  | cons h tl ih =>
    by_cases hk : h.1 = k
    · simp [dictUpsert, dictLookup, hk]
    · simp [dictUpsert, dictLookup, hk, ih]

/-- C3 (amended): `mark_item_downloaded` with a truthy item id upserts
a DownloadRecord carrying the current timestamp and the given file
name, then calls `save_downloaded_items`, returning success iff the
save succeeded; when the save does not durably complete the backing
file keeps its prior contents, but the in-memory store still reflects
the attempted write (there is no rollback). -/
theorem C3_mark_upserts_then_saves (saveOk : Bool) (now : Nat)
    (items : List (String × DRecord)) (disk : Option (List (String × DRecord)))
    (iid filename : String) (sz : Option Nat) (h : iid ≠ "") :
    (mark_item_downloaded saveOk now items disk (some iid) filename sz).saveCalled = true ∧
    ((mark_item_downloaded saveOk now items disk (some iid) filename sz).ok = true ↔
      saveOk = true) ∧
    (∃ mb,
      (mark_item_downloaded saveOk now items disk (some iid) filename sz).items =
        dictUpsert items iid ⟨now, filename, mb⟩ ∧
      dictLookup (mark_item_downloaded saveOk now items disk (some iid) filename sz).items
        iid = some ⟨now, filename, mb⟩) ∧
    (mark_item_downloaded saveOk now items disk (some iid) filename sz).disk =
      (if saveOk then
        some (mark_item_downloaded saveOk now items disk (some iid) filename sz).items
      else disk) := by
  cases saveOk <;>
    simp [mark_item_downloaded, save_downloaded_items, h, dictLookup_dictUpsert]

/-- Witness for C3: a concrete successful call. -/
theorem C3_mark_upserts_then_saves_witness :
    (mark_item_downloaded true 11 [] none (some "movie:7") "m.mkv" none).saveCalled = true ∧
    ((mark_item_downloaded true 11 [] none (some "movie:7") "m.mkv" none).ok = true ↔
      true = true) ∧
    (∃ mb,
      (mark_item_downloaded true 11 [] none (some "movie:7") "m.mkv" none).items =
        dictUpsert [] "movie:7" ⟨11, "m.mkv", mb⟩ ∧
      dictLookup (mark_item_downloaded true 11 [] none (some "movie:7") "m.mkv" none).items
        "movie:7" = some ⟨11, "m.mkv", mb⟩) ∧
    (mark_item_downloaded true 11 [] none (some "movie:7") "m.mkv" none).disk =
      (if true then
        some (mark_item_downloaded true 11 [] none (some "movie:7") "m.mkv" none).items
      else none) :=
  C3_mark_upserts_then_saves true 11 [] none "movie:7" "m.mkv" none (by decide)

/-- Counterexample for C3 as stated: with the environment refusing the
durable write, the call reports failure and the backing file is
untouched, yet the in-memory store DOES reflect the attempted write —
the record is present under the key — contradicting "the in-memory
store does not reflect the attempted write". -/
theorem C3_counterexample :
    (mark_item_downloaded false 7 [] none (some "movie:1") "f.mkv" none).ok = false ∧
    (mark_item_downloaded false 7 [] none (some "movie:1") "f.mkv" none).disk = none ∧
    dictLookup (mark_item_downloaded false 7 [] none (some "movie:1") "f.mkv" none).items
      "movie:1" = some ⟨7, "f.mkv", 0⟩ := by decide

/-- C4: for every backing-file content that JSON parsing rejects,
`load_downloaded_items` returns normally with an empty in-memory store
(whatever the rename outcome), and when the rename-aside succeeds the
corrupt file has been moved to the `.backup` name with its original
bytes. -/
theorem C4_load_corrupt_store (parseJson : String → Option (List (String × DRecord)))
    (content : String) (renameOk : Bool) (h : parseJson content = none) :
    (load_downloaded_items parseJson (some content) renameOk).items = [] ∧
    load_downloaded_items parseJson (some content) true =
      ⟨[], none, some content⟩ := by
  cases renameOk <;> simp [load_downloaded_items, h]

/-- Witness for C4: a concrete corrupt content. -/
theorem C4_load_corrupt_store_witness :
    (load_downloaded_items (fun _ => none) (some "not a json object") true).items = [] ∧
    load_downloaded_items (fun _ => none) (some "not a json object") true =
      ⟨[], none, some "not a json object"⟩ :=
  C4_load_corrupt_store (fun _ => none) "not a json object" true rfl

/-- C10: `mark_item_downloaded` with a falsy item id (`None` or the
empty string) returns `False`, changes neither the in-memory mapping
nor the backing file, and never calls `save_downloaded_items`. -/
theorem C10_mark_falsy_id_noop (saveOk : Bool) (now : Nat)
    (items : List (String × DRecord)) (disk : Option (List (String × DRecord)))
    (item_id : Option String) (filename : String) (sz : Option Nat)
    (h : item_id = none ∨ item_id = some "") :
    mark_item_downloaded saveOk now items disk item_id filename sz =
      ⟨false, items, disk, false⟩ := by
  rcases h with h | h <;> subst h <;> simp [mark_item_downloaded]

/-- Witness for C10: both falsy shapes at concrete inputs. -/
theorem C10_mark_falsy_id_noop_witness :
    mark_item_downloaded true 3 [("movie:1", ⟨1, "a", 0⟩)] none none "f" none =
      ⟨false, [("movie:1", ⟨1, "a", 0⟩)], none, false⟩ ∧
    mark_item_downloaded true 3 [] (some []) (some "") "f" (some 99) =
      ⟨false, [], some [], false⟩ :=
  ⟨C10_mark_falsy_id_noop true 3 [("movie:1", ⟨1, "a", 0⟩)] none none "f" none
      (Or.inl rfl),
    C10_mark_falsy_id_noop true 3 [] (some []) (some "") "f" (some 99)
      (Or.inr rfl)⟩

/-! ## Theorems: worker cancellation (C2) -/

/-- Once the stopped flag is set (and stays set), no boundary check at
or after that poll time writes its chunk: a check that saw the flag
clear must have happened strictly before the flag was set. -/
theorem transferLoop_no_write_after_stop (stopped paused : Nat → Bool)
    (fuel t0 : Nat)
    (hmono : ∀ u v, u ≤ v → stopped u = true → stopped v = true)
    (hstop : stopped t0 = true) :
    ∀ (chunks : List Nat) (t : Nat) (evs : List ChunkEvent) (ws : List Nat)
      (tf : Nat),
      transferLoop stopped paused fuel chunks t = some (evs, ws, tf) →
      ∀ ev ∈ evs, t0 ≤ ev.time → ev.wrote = false := by
  intro chunks
  induction chunks with
  | nil =>
    intro t evs ws tf hrun ev hev
    simp only [transferLoop, Option.some.injEq, Prod.mk.injEq] at hrun
    obtain ⟨he, -, -⟩ := hrun
    subst he
    simp at hev
  | cons c cs ih =>
    intro t evs ws tf hrun ev hev hle
    by_cases hst : stopped t
    · simp only [transferLoop, hst, if_true, Option.some.injEq, Prod.mk.injEq]
        at hrun
      obtain ⟨he, -, -⟩ := hrun
      subst he
      simp at hev
      simp [hev]
    · have hstf : stopped t = false := by
        cases hq : stopped t
        · rfl
        · exact absurd hq hst
      simp only [transferLoop, hstf, Bool.false_eq_true, if_false] at hrun
      cases hpw : pauseWait stopped paused fuel (t + 1) with
      | none =>
        simp only [hpw] at hrun
        exact Option.noConfusion hrun
      | some t2 =>
        simp only [hpw] at hrun
        cases hrec : transferLoop stopped paused fuel cs (t2 + 1) with
        | none =>
          simp only [hrec] at hrun
          exact Option.noConfusion hrun
        | some r =>
          obtain ⟨evs', ws', tf'⟩ := r
          simp only [hrec] at hrun
          by_cases hc : c ≠ 0
          · simp only [if_pos hc, Option.some.injEq, Prod.mk.injEq] at hrun
            obtain ⟨he, -, -⟩ := hrun
            subst he
            rcases List.mem_cons.1 hev with hev | hev
            · subst hev
              exact absurd (hmono t0 t hle hstop) (by simp [hst])
            · exact ih (t2 + 1) evs' ws' tf' hrec ev hev hle
          · simp only [if_neg hc, Option.some.injEq, Prod.mk.injEq] at hrun
            obtain ⟨he, -, -⟩ := hrun
            subst he
            rcases List.mem_cons.1 hev with hev | hev
            · subst hev
              exact absurd (hmono t0 t hle hstop) (by simp [hst])
            · exact ih (t2 + 1) evs' ws' tf' hrec ev hev hle

/-- C2: if the stopped flag is set at poll time `t0` during a worker
iteration (and, the pause/stop flags being latches until `resume`, is
not cleared afterwards), and `t0` is not later than the iteration's
completion check, then: no chunk is written by any boundary check at or
after `t0` (the transfer aborts within one chunk boundary), the partial
destination file remains on disk holding exactly the chunks written,
and `mark_item_downloaded` is never called for the job in that
iteration. -/
theorem C2_stop_aborts_iteration (stopped paused : Nat → Bool)
    (fuel t t0 : Nat) (chunks : List Nat) (item_id : String)
    (res : IterResult)
    (hmono : ∀ u v, u ≤ v → stopped u = true → stopped v = true)
    (hstop : stopped t0 = true)
    (hrun : workerIteration stopped paused fuel chunks item_id t = some res)
    (hle : t0 ≤ res.finalTime) :
    (∀ ev ∈ res.events, t0 ≤ ev.time → ev.wrote = false) ∧
    res.fileOnDisk = some res.written ∧
    res.recorded = false := by
  unfold workerIteration at hrun
  cases hloop : transferLoop stopped paused fuel chunks t with
  | none => simp [hloop] at hrun
  | some r =>
    obtain ⟨evs, ws, tf⟩ := r
    simp only [hloop, Option.some.injEq] at hrun
    subst hrun
    simp only at hle
    refine ⟨?_, rfl, ?_⟩
    · intro ev hev
      exact transferLoop_no_write_after_stop stopped paused fuel t0 hmono hstop
        chunks t evs ws tf hloop ev hev
    · have hstf : stopped tf = true := hmono t0 tf hle hstop
      simp [hstf]

/-- The concrete stop schedule for the C2 witness: the flag is set from
poll time 2 on. -/
def c2stopped : Nat → Bool := fun u => decide (2 ≤ u)

/-- The concrete iteration result for the C2 witness: chunk 1 written
at the check at time 0, stop observed at the check at time 2. -/
def c2res : IterResult :=
  ⟨[⟨0, false, true⟩, ⟨2, true, false⟩], [1], some [1], false, 3⟩

/-- Witness for C2: the theorem applied to a concrete schedule,
three-chunk stream and job. -/
theorem C2_stop_aborts_iteration_witness :
    (∀ ev ∈ c2res.events, 2 ≤ ev.time → ev.wrote = false) ∧
    c2res.fileOnDisk = some c2res.written ∧
    c2res.recorded = false :=
  C2_stop_aborts_iteration c2stopped (fun _ => false) 1 0 2 [1, 2, 3] "movie:9"
    c2res
    (by
      intro u v huv hu
      simp [c2stopped] at hu ⊢
      omega)
    (by decide) (by decide) (by decide)

/-! ## Theorems: reorder structure (C5) and enqueue outcomes (C6, C7) -/

/-- A successful `job_map` lookup returns a queue member carrying the
looked-up id. -/
theorem jobMapFind_eq_some {l : List Job} {i : Nat} {j : Job}
    (h : jobMapFind l i = some j) : j ∈ l ∧ j.id = i := by
  induction l with
  | nil => simp [jobMapFind] at h
  | cons j0 rest ih =>
    unfold jobMapFind at h
    cases hr : jobMapFind rest i with
    | some r =>
      rw [hr] at h
      obtain rfl : r = j := by simpa using h
      exact ⟨List.mem_cons_of_mem _ (ih hr).1, (ih hr).2⟩
    | none =>
      rw [hr] at h
      by_cases h0 : j0.id = i
      · simp only [h0, if_true, Option.some.injEq] at h
        subst h
        exact ⟨List.mem_cons_self _ _, h0⟩
      · simp [h0] at h

/-- The `job_map` lookup succeeds exactly for ids present in the
queue. -/
theorem jobMapFind_isSome_iff (l : List Job) (i : Nat) :
    (jobMapFind l i).isSome ↔ i ∈ l.map Job.id := by
  induction l with
  | nil => simp [jobMapFind]
  | cons j0 rest ih =>
    unfold jobMapFind
    cases hr : jobMapFind rest i with
    | some r =>
      have := jobMapFind_eq_some hr
      simp only [Option.isSome_some, true_iff]
      exact List.mem_map.2 ⟨r, List.mem_cons_of_mem _ this.1, this.2⟩
    | none =>
      rw [hr] at ih
      by_cases h0 : j0.id = i
      · simp [h0]
      · simp only [h0, if_false, List.map_cons, List.mem_cons]
        simp only [Option.isSome_none, Bool.false_eq_true, false_iff] at ih ⊢
        intro hc
        rcases hc with hc | hc
        · exact h0 hc.symm
        · exact ih hc

/-- The ids of the explicitly reordered segment are exactly the
requested order restricted to ids present in the queue. -/
theorem reorder_part1_map_id (q : List Job) (order : List Nat) :
    ((order.filterMap (fun i => jobMapFind q i)).map Job.id) =
      order.filter (fun i => decide (i ∈ q.map Job.id)) := by
  induction order with
  | nil => rfl
  | cons i rest ih =>
    cases h : jobMapFind q i with
    | none =>
      have hmem : i ∉ q.map Job.id := by
        rw [← jobMapFind_isSome_iff]
        simp [h]
      have hb : decide (i ∈ q.map Job.id) = false := by simpa using hmem
      simp only [List.filterMap_cons, h, List.filter_cons, hb,
        Bool.false_eq_true, if_false]
      exact ih
    | some j =>
      have hmem : i ∈ q.map Job.id := by
        rw [← jobMapFind_isSome_iff]
        simp [h]
      have hb : decide (i ∈ q.map Job.id) = true := by simpa using hmem
      simp only [List.filterMap_cons, h, List.filter_cons, hb, if_true,
        List.map_cons]
      rw [(jobMapFind_eq_some h).2, ih]

/-- Every member of the reordered queue was a member of the original
queue. -/
theorem reorder_mem_imp {st : QState} {order : List Nat} {j : Job}
    (hj : j ∈ (queue_reorder st order).queue) : j ∈ st.queue := by
  unfold queue_reorder at hj
  simp only [List.mem_append] at hj
  rcases hj with hj | hj
  · obtain ⟨i, -, hfind⟩ := List.mem_filterMap.1 hj
    exact (jobMapFind_eq_some hfind).1
  · exact (List.mem_filter.1 hj).1

/-- When the queue's job ids are duplicate-free, no job is dropped by
a reorder: every original member reappears. -/
theorem reorder_no_drop {st : QState} (order : List Nat)
    (hids : (st.queue.map Job.id).Nodup) {j : Job} (hj : j ∈ st.queue) :
    j ∈ (queue_reorder st order).queue := by
  unfold queue_reorder
  simp only [List.mem_append]
  by_cases h : j.id ∈ order
  · left
    have hsome : (jobMapFind st.queue j.id).isSome := by
      rw [jobMapFind_isSome_iff]
      exact List.mem_map.2 ⟨j, hj, rfl⟩
    obtain ⟨j', hj'⟩ := Option.isSome_iff_exists.1 hsome
    have hmem := jobMapFind_eq_some hj'
    have heq : j' = j := List.inj_on_of_nodup_map hids hmem.1 hj hmem.2
    rw [heq] at hj'
    exact List.mem_filterMap.2 ⟨j.id, h, hj'⟩
  · right
    exact List.mem_filter.2 ⟨hj, by simpa using h⟩

/-- The three jobs of the C5 concrete instance. -/
def jobA : Job := ⟨0, "u1", "p1", "a", "movie", "movie:1"⟩

def jobB : Job := ⟨1, "u2", "p2", "b", "movie", "movie:2"⟩

def jobC : Job := ⟨2, "u3", "p3", "c", "movie", "movie:3"⟩

/-- The C5 concrete queue `[a, b, c]`. -/
def c5state : QState :=
  ⟨[jobA, jobB, jobC], ["movie:1", "movie:2", "movie:3"], [], 3⟩

/-- C5: on a queue with duplicate-free job ids, `queue_reorder` yields
the jobs named in the order list first (their ids being the order list
restricted to present ids, in order), followed by exactly the
unmentioned jobs in their prior relative order, and drops no job; in
particular reordering the queue `[a, b, c]` by `[c, a]` yields
`[c, a, b]`. -/
theorem C5_reorder_structure :
    (∀ (st : QState) (order : List Nat), (st.queue.map Job.id).Nodup →
      (∀ j ∈ st.queue, j ∈ (queue_reorder st order).queue) ∧
      ∃ pre post,
        (queue_reorder st order).queue = pre ++ post ∧
        pre.map Job.id = order.filter (fun i => decide (i ∈ st.queue.map Job.id)) ∧
        (∀ j ∈ pre, j ∈ st.queue) ∧
        post.Sublist st.queue ∧
        (∀ j, j ∈ post ↔ j ∈ st.queue ∧ j.id ∉ order)) ∧
    (queue_reorder c5state [2, 0]).queue = [jobC, jobA, jobB] := by
  constructor
  · intro st order hids
    refine ⟨fun j hj => reorder_no_drop order hids hj, ?_⟩
    refine ⟨order.filterMap (fun i => jobMapFind st.queue i),
      st.queue.filter (fun j => decide (j.id ∉ order)), rfl,
      reorder_part1_map_id st.queue order, ?_, List.filter_sublist _, ?_⟩
    · intro j hj
      obtain ⟨i, -, hfind⟩ := List.mem_filterMap.1 hj
      exact (jobMapFind_eq_some hfind).1
    · intro j
      simp [List.mem_filter]
  · decide

/-- Witness for C5: the universally quantified part applied to the
concrete three-job queue. -/
theorem C5_reorder_structure_witness :
    (∀ j ∈ c5state.queue, j ∈ (queue_reorder c5state [2, 0]).queue) ∧
    ∃ pre post,
      (queue_reorder c5state [2, 0]).queue = pre ++ post ∧
      pre.map Job.id = [2, 0].filter (fun i => decide (i ∈ c5state.queue.map Job.id)) ∧
      (∀ j ∈ pre, j ∈ c5state.queue) ∧
      post.Sublist c5state.queue ∧
      (∀ j, j ∈ post ↔ j ∈ c5state.queue ∧ j.id ∉ [2, 0]) :=
  C5_reorder_structure.1 c5state [2, 0] (by decide)

/-- C6: an enqueue of an item id already in the queued-membership set
returns `AlreadyQueued` and leaves the state untouched; concretely,
enqueuing `movie:42` twice in a row from the initial state leaves queue
size 1 and makes the second call return `AlreadyQueued`. -/
theorem C6_duplicate_enqueue :
    (∀ (st : QState) (kind idStr : String) (title : Option String) (ext : String),
      (kind ++ ":" ++ idStr) ∈ st.queuedItems →
      queue_item st kind idStr title ext = (.alreadyQueued, st)) ∧
    (queue_item initialQState "movie" "42" none "mp4").2.queue.length = 1 ∧
    queue_item (queue_item initialQState "movie" "42" none "mp4").2 "movie" "42"
        none "mp4" =
      (.alreadyQueued, (queue_item initialQState "movie" "42" none "mp4").2) := by
  refine ⟨?_, by decide, by decide⟩
  intro st kind idStr title ext h
  simp [queue_item, h]

/-- Witness for C6: the universally quantified part at a concrete
state. -/
theorem C6_duplicate_enqueue_witness :
    queue_item ⟨[], ["movie:42"], [], 5⟩ "movie" "42" none "mp4" =
      (.alreadyQueued, ⟨[], ["movie:42"], [], 5⟩) :=
  C6_duplicate_enqueue.1 ⟨[], ["movie:42"], [], 5⟩ "movie" "42" none "mp4"
    (by decide)

/-- C7 (amended): an enqueue of an item id recorded in the persistent
store is always a no-op, and returns `AlreadyDownloaded` when the id
is not currently in the queued-membership set — but `AlreadyQueued`
when it is (the source checks the queue first); the series batch
enqueue likewise skips a downloaded episode without adding it. -/
theorem C7_enqueue_downloaded :
    (∀ (st : QState) (kind idStr : String) (title : Option String) (ext : String),
      (kind ++ ":" ++ idStr) ∈ st.downloaded →
      ((kind ++ ":" ++ idStr) ∉ st.queuedItems →
        queue_item st kind idStr title ext = (.alreadyDownloaded, st)) ∧
      ((kind ++ ":" ++ idStr) ∈ st.queuedItems →
        queue_item st kind idStr title ext = (.alreadyQueued, st))) ∧
    (∀ (ssn sn : String) (st : QState) (ep : Ep),
      ("series:" ++ ep.epId) ∈ st.downloaded →
      series_ep_step ssn sn st ep = (st, false)) := by
  constructor
  · intro st kind idStr title ext hd
    constructor
    · intro hq
      simp [queue_item, hq, hd]
    · intro hq
      simp [queue_item, hq]
  · intro ssn sn st ep hd
    by_cases hq : ("series:" ++ ep.epId) ∈ st.queuedItems
    · simp [series_ep_step, hq]
    · simp [series_ep_step, hq, hd]

/-- Witness for C7: concrete applications of both parts. -/
theorem C7_enqueue_downloaded_witness :
    queue_item ⟨[], [], ["movie:42"], 0⟩ "movie" "42" none "mp4" =
      (.alreadyDownloaded, ⟨[], [], ["movie:42"], 0⟩) ∧
    series_ep_step "S" "1" ⟨[], [], ["series:7"], 0⟩ ⟨"7", "t", "1", "2", "mkv"⟩ =
      (⟨[], [], ["series:7"], 0⟩, false) :=
  ⟨(C7_enqueue_downloaded.1 ⟨[], [], ["movie:42"], 0⟩ "movie" "42" none "mp4"
      (by decide)).1 (by decide),
    C7_enqueue_downloaded.2 "S" "1" ⟨[], [], ["series:7"], 0⟩
      ⟨"7", "t", "1", "2", "mkv"⟩ (by decide)⟩

/-- The C7 counterexample state: `movie:42` enqueued from the initial
state and then marked downloaded (as `mark_downloaded_key` records it
while the job is still queued). -/
def c7state : QState :=
  mark_downloaded_key (queue_item initialQState "movie" "42" none "mp4").2
    "movie:42"

/-- Counterexample for C7 as stated: in the reachable state where
`movie:42` is recorded in the persistent store while still queued, a
further enqueue of it returns `AlreadyQueued`, not the claimed
`AlreadyDownloaded`. -/
theorem C7_counterexample :
    "movie:42" ∈ c7state.downloaded ∧
    (queue_item c7state "movie" "42" none "mp4").1 = .alreadyQueued ∧
    (queue_item c7state "movie" "42" none "mp4").1 ≠ .alreadyDownloaded := by
  decide

/-! ## Theorems: queue item-id uniqueness (C1) -/

/-- A string append with a nonempty left part is nonempty. -/
theorem append_ne_empty_of_left_ne (a b : String) (ha : a ≠ "") :
    a ++ b ≠ "" := by
  intro h
  apply ha
  have hd := congrArg String.data h
  rw [String.data_append] at hd
  have hnil : ("" : String).data = [] := rfl
  rw [hnil] at hd
  rcases List.append_eq_nil.1 hd with ⟨h1, -⟩
  exact String.ext (by rw [h1])

/-- A string append with a nonempty right part is nonempty. -/
theorem append_ne_empty_of_right_ne (a b : String) (hb : b ≠ "") :
    a ++ b ≠ "" := by
  intro h
  apply hb
  have hd := congrArg String.data h
  rw [String.data_append] at hd
  have hnil : ("" : String).data = [] := rfl
  rw [hnil] at hd
  rcases List.append_eq_nil.1 hd with ⟨-, h2⟩
  exact String.ext (by rw [h2])

/-- Item ids of the `"<kind>:<id>"` shape are never empty. -/
theorem item_id_ne_empty (kind idStr : String) : kind ++ ":" ++ idStr ≠ "" :=
  append_ne_empty_of_left_ne _ idStr
    (append_ne_empty_of_right_ne kind ":" (by decide))

/-- Membership after a set insert. -/
theorem mem_setInsert (l : List String) (a x : String) :
    x ∈ setInsert l a ↔ x = a ∨ x ∈ l := by
  unfold setInsert
  by_cases h : a ∈ l
  · simp only [h, if_true]
    constructor
    · exact Or.inr
    · rintro (rfl | hx)
      · exact h
      · exact hx
  · simp [h]

/-- A set insert preserves duplicate-freedom. -/
theorem nodup_setInsert (l : List String) (a : String) (h : l.Nodup) :
    (setInsert l a).Nodup := by
  unfold setInsert
  by_cases ha : a ∈ l
  · rw [if_pos ha]
    exact h
  · rw [if_neg ha]
    exact List.nodup_cons.2 ⟨ha, h⟩

/-- The queue-state invariant: job ids are duplicate-free and below the
fresh-id counter, item ids are duplicate-free and nonempty, and the
membership set is exactly the set of queued item ids. -/
def QInv (st : QState) : Prop :=
  (st.queue.map Job.id).Nodup ∧
  (∀ j ∈ st.queue, j.id < st.nextId) ∧
  (st.queue.map Job.item_id).Nodup ∧
  st.queuedItems.Nodup ∧
  (∀ x, x ∈ st.queuedItems ↔ x ∈ st.queue.map Job.item_id) ∧
  (∀ j ∈ st.queue, j.item_id ≠ "")

/-- The invariant holds at startup. -/
theorem QInv_initial : QInv initialQState :=
  ⟨by simp [initialQState], by simp [initialQState], by simp [initialQState],
    by simp [initialQState], by simp [initialQState], by simp [initialQState]⟩

/-- Appending one job with a fresh id, an unqueued nonempty item id,
preserves the invariant. -/
theorem QInv_enqueueJob (st : QState) (job : Job) (hid : job.id = st.nextId)
    (hitem : job.item_id ∉ st.queuedItems) (hne : job.item_id ≠ "")
    (h : QInv st) : QInv (enqueueJob st job) := by
  obtain ⟨h1, h2, h3, h4, h5, h6⟩ := h
  refine ⟨?_, ?_, ?_, ?_, ?_, ?_⟩
  · show ((st.queue ++ [job]).map Job.id).Nodup
    rw [List.map_append]
    refine h1.append (List.nodup_singleton _) ?_
    intro a ha hb
    simp only [List.map_cons, List.map_nil, List.mem_singleton] at hb
    obtain ⟨j', hj', hjid⟩ := List.mem_map.1 ha
    have hlt := h2 j' hj'
    rw [hjid, hb, hid] at hlt
    omega
  · show ∀ j ∈ st.queue ++ [job], j.id < st.nextId + 1
    intro j hj
    rcases List.mem_append.1 hj with hj | hj
    · exact Nat.lt_succ_of_lt (h2 j hj)
    · rw [List.mem_singleton.1 hj, hid]
      exact Nat.lt_succ_self _
  · show ((st.queue ++ [job]).map Job.item_id).Nodup
    rw [List.map_append]
    refine h3.append (List.nodup_singleton _) ?_
    intro a ha hb
    simp only [List.map_cons, List.map_nil, List.mem_singleton] at hb
    apply hitem
    rw [← hb]
    exact (h5 a).2 ha
  · exact nodup_setInsert _ _ h4
  · intro x
    rw [show (enqueueJob st job).queuedItems = setInsert st.queuedItems job.item_id
      from rfl]
    rw [mem_setInsert]
    show x = job.item_id ∨ x ∈ st.queuedItems ↔ x ∈ (st.queue ++ [job]).map Job.item_id
    rw [List.map_append, List.mem_append]
    simp only [List.map_cons, List.map_nil, List.mem_singleton]
    rw [h5 x]
    tauto
  · show ∀ j ∈ st.queue ++ [job], j.item_id ≠ ""
    intro j hj
    rcases List.mem_append.1 hj with hj | hj
    · exact h6 j hj
    · rw [List.mem_singleton.1 hj]
      exact hne

/-- Enqueueing via `queue_item` preserves the invariant. -/
theorem QInv_queue_item (st : QState) (k i : String) (t : Option String)
    (e : String) (h : QInv st) : QInv (queue_item st k i t e).2 := by
  by_cases hq : (k ++ ":" ++ i) ∈ st.queuedItems
  · have heq : (queue_item st k i t e).2 = st := by simp [queue_item, hq]
    rw [heq]; exact h
  · by_cases hd : (k ++ ":" ++ i) ∈ st.downloaded
    · have heq : (queue_item st k i t e).2 = st := by simp [queue_item, hq, hd]
      rw [heq]; exact h
    · have heq : (queue_item st k i t e).2 =
          enqueueJob st (queue_item_job st k i t e) := by
        simp [queue_item, hq, hd]
      rw [heq]
      exact QInv_enqueueJob st (queue_item_job st k i t e) rfl hq
        (item_id_ne_empty k i) h

/-- One series-episode iteration preserves the invariant. -/
theorem QInv_series_ep_step (safe sn : String) (st : QState) (ep : Ep)
    (h : QInv st) : QInv (series_ep_step safe sn st ep).1 := by
  by_cases hq : ("series:" ++ ep.epId) ∈ st.queuedItems
  · have heq : (series_ep_step safe sn st ep).1 = st := by
      simp [series_ep_step, hq]
    rw [heq]; exact h
  · by_cases hd : ("series:" ++ ep.epId) ∈ st.downloaded
    · have heq : (series_ep_step safe sn st ep).1 = st := by
        simp [series_ep_step, hq, hd]
      rw [heq]; exact h
    · have heq : (series_ep_step safe sn st ep).1 =
          enqueueJob st (series_ep_job st safe sn ep) := by
        simp [series_ep_step, hq, hd]
      rw [heq]
      exact QInv_enqueueJob st (series_ep_job st safe sn ep) rfl hq
        (append_ne_empty_of_left_ne "series:" ep.epId (by decide)) h

/-- The inner episode fold preserves the invariant. -/
theorem QInv_series_ep_fold_list (safe sn : String) :
    ∀ (eps : List Ep) (acc : QState × Nat), QInv acc.1 →
      QInv (eps.foldl (series_ep_fold safe sn) acc).1 := by
  intro eps
  induction eps with
  | nil => intro acc h; exact h
  | cons e rest ih =>
    intro acc h
    rw [List.foldl_cons]
    exact ih _ (QInv_series_ep_step safe sn acc.1 e h)

/-- Enqueueing via `queue_entire_series` preserves the invariant. -/
theorem QInv_queue_entire_series (st : QState) (series_name : String)
    (episodes : List (String × List Ep)) (h : QInv st) :
    QInv (queue_entire_series st series_name episodes).1 := by
  suffices hgen : ∀ (l : List (String × List Ep)) (acc : QState × Nat),
      QInv acc.1 →
      QInv ((l.foldl
        (fun acc se =>
          se.2.foldl (series_ep_fold (sanitize_filename series_name) se.1) acc)
        acc)).1 from hgen episodes (st, 0) h
  intro l
  induction l with
  | nil => intro acc hacc; exact hacc
  | cons se rest ih =>
    intro acc hacc
    rw [List.foldl_cons]
    exact ih _ (QInv_series_ep_fold_list _ _ se.2 acc hacc)

/-- The worker's dequeue preserves the invariant. -/
theorem QInv_worker_dequeue (st : QState) (h : QInv st) :
    QInv (worker_dequeue st).2 := by
  obtain ⟨h1, h2, h3, h4, h5, h6⟩ := h
  cases hq : st.queue with
  | nil =>
    have heq : (worker_dequeue st).2 = st := by simp [worker_dequeue, hq]
    rw [heq]; exact ⟨h1, h2, h3, h4, h5, h6⟩
  | cons j rest =>
    have hne : j.item_id ≠ "" := h6 j (by rw [hq]; exact List.mem_cons_self _ _)
    have heq : (worker_dequeue st).2 =
        { st with
            queue := rest
            queuedItems := setErase st.queuedItems j.item_id } := by
      simp [worker_dequeue, hq, hne]
    rw [heq]
    rw [hq] at h1 h2 h3 h5 h6
    rw [List.map_cons] at h1 h3
    have hjnot : j.item_id ∉ rest.map Job.item_id := (List.nodup_cons.1 h3).1
    refine ⟨h1.of_cons, ?_, h3.of_cons, h4.erase _, ?_, ?_⟩
    · intro x hx
      exact h2 x (List.mem_cons_of_mem _ hx)
    · intro x
      show x ∈ setErase st.queuedItems j.item_id ↔ x ∈ rest.map Job.item_id
      unfold setErase
      rw [h4.mem_erase_iff]
      constructor
      · rintro ⟨hxne, hxq⟩
        have := (h5 x).1 hxq
        rw [List.map_cons, List.mem_cons] at this
        rcases this with hcontra | hmem
        · exact absurd hcontra hxne
        · exact hmem
      · intro hx
        refine ⟨?_, (h5 x).2 ?_⟩
        · intro hcontra
          rw [hcontra] at hx
          exact hjnot hx
        · rw [List.map_cons, List.mem_cons]
          exact Or.inr hx
    · intro x hx
      exact h6 x (List.mem_cons_of_mem _ hx)

/-- Removal via `queue_remove` preserves the invariant. -/
theorem QInv_queue_remove (st : QState) (jobId : Nat) (h : QInv st) :
    QInv (queue_remove st jobId).2 := by
  obtain ⟨h1, h2, h3, h4, h5, h6⟩ := h
  cases hf : st.queue.find? (fun j => j.id == jobId) with
  | none =>
    have heq : (queue_remove st jobId).2 = st := by simp [queue_remove, hf]
    rw [heq]; exact ⟨h1, h2, h3, h4, h5, h6⟩
  | some j =>
    have hj : j ∈ st.queue := List.mem_of_find?_eq_some hf
    have hne : j.item_id ≠ "" := h6 j hj
    have heq : (queue_remove st jobId).2 =
        { st with
            queue := st.queue.erase j
            queuedItems := setErase st.queuedItems j.item_id } := by
      simp [queue_remove, hf, hne]
    rw [heq]
    have hperm : List.Perm st.queue (j :: st.queue.erase j) :=
      List.perm_cons_erase hj
    have hpid : List.Perm (st.queue.map Job.id)
        (j.id :: (st.queue.erase j).map Job.id) := by
      simpa using hperm.map Job.id
    have hpitem : List.Perm (st.queue.map Job.item_id)
        (j.item_id :: (st.queue.erase j).map Job.item_id) := by
      simpa using hperm.map Job.item_id
    have hjnot : j.item_id ∉ (st.queue.erase j).map Job.item_id :=
      (List.nodup_cons.1 (hpitem.nodup h3)).1
    refine ⟨(hpid.nodup h1).of_cons, ?_, (hpitem.nodup h3).of_cons, h4.erase _,
      ?_, ?_⟩
    · intro x hx
      exact h2 x (List.erase_subset _ _ hx)
    · intro x
      show x ∈ setErase st.queuedItems j.item_id ↔
        x ∈ (st.queue.erase j).map Job.item_id
      unfold setErase
      rw [h4.mem_erase_iff]
      constructor
      · rintro ⟨hxne, hxq⟩
        have hmem := hpitem.mem_iff.1 ((h5 x).1 hxq)
        rcases List.mem_cons.1 hmem with hcontra | hmem
        · exact absurd hcontra hxne
        · exact hmem
      · intro hx
        refine ⟨?_, (h5 x).2 (hpitem.mem_iff.2 (List.mem_cons_of_mem _ hx))⟩
        intro hcontra
        rw [hcontra] at hx
        exact hjnot hx
    · intro x hx
      exact h6 x (List.erase_subset _ _ hx)

/-- Clearing via `queue_clear` establishes the invariant outright. -/
theorem QInv_queue_clear (st : QState) : QInv (queue_clear st) :=
  ⟨by simp [queue_clear], by simp [queue_clear], by simp [queue_clear],
    by simp [queue_clear], by simp [queue_clear], by simp [queue_clear]⟩

/-- Reordering via `queue_reorder` with a duplicate-free order list preserves the
invariant. -/
theorem QInv_queue_reorder (st : QState) (order : List Nat)
    (hord : order.Nodup) (h : QInv st) : QInv (queue_reorder st order) := by
  obtain ⟨h1, h2, h3, h4, h5, h6⟩ := h
  have hqueue : (queue_reorder st order).queue =
      order.filterMap (fun i => jobMapFind st.queue i) ++
        st.queue.filter (fun j => decide (j.id ∉ order)) := rfl
  have hmemimp : ∀ j : Job, j ∈ (queue_reorder st order).queue → j ∈ st.queue :=
    fun j hj => reorder_mem_imp hj
  have hids : ((queue_reorder st order).queue.map Job.id).Nodup := by
    rw [hqueue, List.map_append, reorder_part1_map_id]
    refine (hord.filter _).append
      (h1.sublist ((List.filter_sublist _).map Job.id)) ?_
    intro a ha hb
    have ha' : a ∈ order := List.mem_of_mem_filter ha
    obtain ⟨j, hjf, hjid⟩ := List.mem_map.1 hb
    have hdec := (List.mem_filter.1 hjf).2
    simp only [decide_eq_true_eq] at hdec
    rw [hjid] at hdec
    exact hdec ha'
  refine ⟨hids, ?_, ?_, h4, ?_, ?_⟩
  · intro j hj
    exact h2 j (hmemimp j hj)
  · refine List.Nodup.map_on ?_ (List.Nodup.of_map Job.id hids)
    intro x hx y hy hxy
    exact List.inj_on_of_nodup_map h3 (hmemimp x hx) (hmemimp y hy) hxy
  · intro x
    show x ∈ st.queuedItems ↔ x ∈ (queue_reorder st order).queue.map Job.item_id
    rw [h5 x]
    constructor
    · intro hx
      obtain ⟨j, hj, hjid⟩ := List.mem_map.1 hx
      exact List.mem_map.2 ⟨j, reorder_no_drop order h1 hj, hjid⟩
    · intro hx
      obtain ⟨j, hj, hjid⟩ := List.mem_map.1 hx
      exact List.mem_map.2 ⟨j, hmemimp j hj, hjid⟩
  · intro j hj
    exact h6 j (hmemimp j hj)

/-- Every well-formed queue operation preserves the invariant. -/
theorem QInv_applyQOp (st : QState) (op : QOp) (hok : qopOk op = true)
    (h : QInv st) : QInv (applyQOp st op) := by
  cases op with
  | enqueue k i t e => exact QInv_queue_item st k i t e h
  | enqueueSeries n eps => exact QInv_queue_entire_series st n eps h
  | dequeue => exact QInv_worker_dequeue st h
  | removeJob j => exact QInv_queue_remove st j h
  | clearQueue => exact QInv_queue_clear st
  | reorder o =>
    have hord : o.Nodup := by simpa [qopOk] using hok
    exact QInv_queue_reorder st o hord h

/-- Sequences of well-formed queue operations preserve the invariant. -/
theorem QInv_runQOps : ∀ (ops : List QOp) (st : QState),
    (∀ op ∈ ops, qopOk op = true) → QInv st → QInv (runQOps st ops) := by
  intro ops
  induction ops with
  | nil => intro st _ h; exact h
  | cons op rest ih =>
    intro st hok h
    exact ih (applyQOp st op)
      (fun o ho => hok o (List.mem_cons_of_mem _ ho))
      (QInv_applyQOp st op (hok op (List.mem_cons_self _ _)) h)

/-- C1 (amended): for every sequence of the queue operations (enqueue
via `queue_item` / `queue_entire_series`, the worker's dequeue,
`queue_remove`, `queue_clear`, `queue_reorder`) in which each reorder
request's id list is duplicate-free, the job queue never contains two
jobs with the same item id. -/
theorem C1_no_duplicate_item_ids (ops : List QOp)
    (hok : ∀ op ∈ ops, qopOk op = true) :
    ((runQOps initialQState ops).queue.map Job.item_id).Nodup :=
  (QInv_runQOps ops initialQState hok QInv_initial).2.2.1

/-- Witness for C1: a concrete operation sequence exercising every
operation kind. -/
theorem C1_no_duplicate_item_ids_witness :
    ((runQOps initialQState
        [.enqueue "movie" "42" none "mp4",
          .enqueueSeries "S" [("1", [⟨"7", "t", "1", "2", "mkv"⟩])],
          .dequeue, .enqueue "movie" "42" none "mp4", .reorder [2, 1],
          .removeJob 1]).queue.map Job.item_id).Nodup :=
  C1_no_duplicate_item_ids
    [.enqueue "movie" "42" none "mp4",
      .enqueueSeries "S" [("1", [⟨"7", "t", "1", "2", "mkv"⟩])],
      .dequeue, .enqueue "movie" "42" none "mp4", .reorder [2, 1],
      .removeJob 1] (by decide)

/-- Counterexample for C1 as stated: a reorder request that repeats a
job id duplicates the job (the source appends one queue entry per
occurrence of the id in the requested order), so after enqueuing
`movie:42` and reordering by `[0, 0]` the queue holds two jobs with the
same item id. -/
theorem C1_counterexample :
    ¬ ((runQOps initialQState
        [.enqueue "movie" "42" none "mp4", .reorder [0, 0]]).queue.map
          Job.item_id).Nodup := by
  decide

/-! ## Theorems: filename parsing (C8) -/

/-- Declarative form of "the base matches `S<number>E<number>`
case-insensitively": some position holds `S`/`s`, a nonempty digit run,
`E`/`e`, and a nonempty digit run. -/
def HasSEPattern (cs : List Char) : Prop :=
  ∃ (pre ds es post : List Char) (a b : Char),
    cs = pre ++ a :: (ds ++ b :: (es ++ post)) ∧
    (a = 'S' ∨ a = 's') ∧ ds ≠ [] ∧ (∀ c ∈ ds, c.isDigit) ∧
    (b = 'E' ∨ b = 'e') ∧ es ≠ [] ∧ (∀ c ∈ es, c.isDigit)

/-- Computation of `takeWhile`/`dropWhile` on a list that starts with an all-`p` run
followed by a failing element. -/
theorem takeWhile_dropWhile_all (p : Char → Bool) (ds : List Char)
    (b : Char) (tl : List Char) (hds : ∀ c ∈ ds, p c = true)
    (hb : p b = false) :
    (ds ++ b :: tl).takeWhile p = ds ∧ (ds ++ b :: tl).dropWhile p = b :: tl := by
  induction ds with
  | nil => simp [List.takeWhile_cons, List.dropWhile_cons, hb]
  | cons d ds ih =>
    have hd : p d = true := hds d (List.mem_cons_self _ _)
    have ihh := ih (fun c hc => hds c (List.mem_cons_of_mem _ hc))
    simp [List.takeWhile_cons, List.dropWhile_cons, hd, ihh.1, ihh.2]

/-- Matching via `matchSEAt` succeeds on an explicit `S`-digits-`E`-digits head. -/
theorem matchSEAt_isSome_of_shape (a : Char) (ds : List Char) (b : Char)
    (es post : List Char) (ha : a = 'S' ∨ a = 's') (hds : ds ≠ [])
    (hdsd : ∀ c ∈ ds, c.isDigit) (hb : b = 'E' ∨ b = 'e') (hes : es ≠ [])
    (hesd : ∀ c ∈ es, c.isDigit) :
    (matchSEAt (a :: (ds ++ b :: (es ++ post)))).isSome := by
  have hbnd : b.isDigit = false := by
    rcases hb with rfl | rfl <;> decide
  obtain ⟨htake, hdrop⟩ :=
    takeWhile_dropWhile_all (fun c => c.isDigit) ds b (es ++ post) hdsd hbnd
  simp only [matchSEAt]
  rw [if_pos ha, htake, hdrop]
  have hdse : ds.isEmpty = false := by
    cases ds
    · exact absurd rfl hds
    · rfl
  rw [hdse]
  simp only [Bool.false_eq_true, if_false]
  rw [if_pos hb]
  cases es with
  | nil => exact absurd rfl hes
  | cons e0 es' =>
    have he0 : e0.isDigit = true := hesd e0 (List.mem_cons_self _ _)
    simp [List.takeWhile_cons, he0]

/-- A successful `matchSEAt` exposes the `S`-digits-`E`-digits shape at
the head. -/
theorem matchSEAt_some_shape (cs : List Char) (r : Nat × Nat)
    (h : matchSEAt cs = some r) :
    ∃ (a : Char) (ds : List Char) (b : Char) (es post : List Char),
      cs = a :: (ds ++ b :: (es ++ post)) ∧ (a = 'S' ∨ a = 's') ∧ ds ≠ [] ∧
      (∀ c ∈ ds, c.isDigit) ∧ (b = 'E' ∨ b = 'e') ∧ es ≠ [] ∧
      (∀ c ∈ es, c.isDigit) := by
  cases cs with
  | nil => simp [matchSEAt] at h
  | cons a rest =>
    simp only [matchSEAt] at h
    split at h
    next ha =>
      split at h
      next hde => exact Option.noConfusion h
      next hde =>
        split at h
        next hdw => exact Option.noConfusion h
        next b rest3 hdw =>
          split at h
          next hb =>
            split at h
            next hee => exact Option.noConfusion h
            next hee =>
              refine ⟨a, rest.takeWhile (fun c => c.isDigit), b,
                rest3.takeWhile (fun c => c.isDigit),
                rest3.dropWhile (fun c => c.isDigit), ?_, ha, ?_, ?_, hb, ?_, ?_⟩
              · rw [show (b :: (rest3.takeWhile (fun c => c.isDigit) ++
                      (rest3.dropWhile (fun c => c.isDigit))) : List Char) =
                    b :: rest3 by rw [List.takeWhile_append_dropWhile]]
                rw [← hdw, List.takeWhile_append_dropWhile]
              · intro hcontra
                rw [hcontra] at hde
                exact hde rfl
              · intro c hc
                exact List.mem_takeWhile_imp hc
              · intro hcontra
                rw [hcontra] at hee
                exact hee rfl
              · intro c hc
                exact List.mem_takeWhile_imp hc
          next hb => exact Option.noConfusion h
    next ha => exact Option.noConfusion h

/-- The first-match scan succeeds exactly on lists containing the
pattern. -/
theorem searchSE_isSome_iff (cs : List Char) :
    (searchSE cs).isSome ↔ HasSEPattern cs := by
  induction cs with
  | nil =>
    simp only [searchSE, Option.isSome_none, Bool.false_eq_true, false_iff]
    rintro ⟨pre, ds, es, post, a, b, hcs, -⟩
    exact absurd hcs (by simp)
  | cons c cs' ih =>
    constructor
    · intro hs
      simp only [searchSE] at hs
      cases hm : matchSEAt (c :: cs') with
      | some r =>
        obtain ⟨a, ds, b, es, post, hcs, ha, hds, hdsd, hb, hes, hesd⟩ :=
          matchSEAt_some_shape _ r hm
        exact ⟨[], ds, es, post, a, b, by rw [hcs]; rfl, ha, hds, hdsd, hb,
          hes, hesd⟩
      | none =>
        rw [hm] at hs
        obtain ⟨pre, ds, es, post, a, b, hcs, ha, hds, hdsd, hb, hes, hesd⟩ :=
          ih.1 hs
        exact ⟨c :: pre, ds, es, post, a, b, by rw [hcs]; rfl, ha, hds, hdsd,
          hb, hes, hesd⟩
    · rintro ⟨pre, ds, es, post, a, b, hcs, ha, hds, hdsd, hb, hes, hesd⟩
      simp only [searchSE]
      cases hm : matchSEAt (c :: cs') with
      | some r => rfl
      | none =>
        cases pre with
        | nil =>
          simp only [List.nil_append] at hcs
          have hsome := matchSEAt_isSome_of_shape a ds b es post ha hds hdsd
            hb hes hesd
          rw [← hcs, hm] at hsome
          exact absurd hsome (by simp)
        | cons p0 pre' =>
          have hcs' : cs' = pre' ++ a :: (ds ++ b :: (es ++ post)) := by
            rw [List.cons_append] at hcs
            injection hcs
          exact ih.2 ⟨pre', ds, es, post, a, b, hcs', ha, hds, hdsd, hb, hes,
            hesd⟩

/-- C8 (amended): a filename whose extension-stripped base contains the
case-insensitive pattern `S<number>E<number>` is classified as an
episode (and only such filenames are), with the season and episode
numbers of the first match; the series name is taken from the base only
when a '-'-separated prefix precedes the pattern (regex
`^(.+?)\s*-\s*S\d+E\d+`), and is absent otherwise; every other filename
is classified as a movie keyed by its normalized name.  Concretely,
`"Show Name - S02E05 - Title.mkv"` parses to episode season 2 episode 5
of series "Show Name" (normalized "show name"), and `"Some Movie.mp4"`
parses to a movie with normalized name "some movie". -/
theorem C8_extract_episode_info :
    (∀ filename : String,
      ((extract_episode_info filename).ptype = .episode ↔
        HasSEPattern (splitextBase filename).data)) ∧
    (∀ filename : String, ¬ HasSEPattern (splitextBase filename).data →
      (extract_episode_info filename).normalized_name =
        some (normalize_filename_for_matching (splitextBase filename))) ∧
    extract_episode_info "Show Name - S02E05 - Title.mkv" =
      ⟨.episode, some 2, some 5, some "Show Name", some "show name", none⟩ ∧
    extract_episode_info "Some Movie.mp4" =
      ⟨.movie, none, none, none, none, some "some movie"⟩ := by
  refine ⟨?_, ?_, by decide, by decide⟩
  · intro filename
    rw [← searchSE_isSome_iff]
    unfold extract_episode_info
    cases h : searchSE (splitextBase filename).data with
    | some r =>
      obtain ⟨s, e⟩ := r
      simp [h]
    | none => simp [h]
  · intro filename hn
    rw [← searchSE_isSome_iff] at hn
    unfold extract_episode_info
    cases h : searchSE (splitextBase filename).data with
    | some r =>
      rw [h] at hn
      exact absurd (by simp) hn
    | none => simp [h]

/-- Witness for C8: the hypothesis-bearing parts applied to the
concrete movie filename. -/
theorem C8_extract_episode_info_witness :
    ((extract_episode_info "Some Movie.mp4").ptype = .episode ↔
      HasSEPattern (splitextBase "Some Movie.mp4").data) ∧
    (extract_episode_info "Some Movie.mp4").normalized_name =
      some (normalize_filename_for_matching (splitextBase "Some Movie.mp4")) :=
  ⟨C8_extract_episode_info.1 "Some Movie.mp4",
    C8_extract_episode_info.2.1 "Some Movie.mp4"
      (fun hp => by
        have hs := (searchSE_isSome_iff (splitextBase "Some Movie.mp4").data).2 hp
        rw [show searchSE (splitextBase "Some Movie.mp4").data = none by decide]
          at hs
        exact absurd hs (by simp))⟩

/-- Counterexample for C8 as stated: `"Show S02E05.mkv"` has the
pattern preceded by the substring "Show ", so the claim requires series
name "Show"; the code's series regex requires a literal '-' separator
and yields no series name at all. -/
theorem C8_counterexample :
    (extract_episode_info "Show S02E05.mkv").ptype = .episode ∧
    (extract_episode_info "Show S02E05.mkv").season = some 2 ∧
    (extract_episode_info "Show S02E05.mkv").episode = some 5 ∧
    (extract_episode_info "Show S02E05.mkv").series_name = none ∧
    (extract_episode_info "Show S02E05.mkv").series_name ≠ some "Show" := by
  decide

/-! ## Theorems: file matching (C9) -/

/-- Soundness of the movie loop: a returned record comes from an entry
of movie type whose key passed the movie condition. -/
theorem movieLoop_eq_some {nm : String} {l : List (String × ScannedFile)}
    {fi : ScannedFile} (h : movieLoop nm l = some fi) :
    ∃ key, (key, fi) ∈ l ∧ fi.info.ptype = .movie ∧ movieCond nm key = true := by
  induction l with
  | nil => simp [movieLoop] at h
  | cons p rest ih =>
    obtain ⟨key, f⟩ := p
    simp only [movieLoop] at h
    split at h
    next hc =>
      obtain rfl : f = fi := by simpa using h
      have hc' : f.info.ptype = .movie ∧ movieCond nm key = true := by
        simpa [Bool.and_eq_true, decide_eq_true_eq] using hc
      exact ⟨key, List.mem_cons_self _ _, hc'.1, hc'.2⟩
    next hc =>
      obtain ⟨key', hmem, hty, hcond⟩ := ih h
      exact ⟨key', List.mem_cons_of_mem _ hmem, hty, hcond⟩

/-- Completeness of the movie loop: with no qualifying entry it
returns `none`. -/
theorem movieLoop_eq_none {nm : String} {l : List (String × ScannedFile)}
    (h : ∀ p ∈ l, ¬(p.2.info.ptype = .movie ∧ movieCond nm p.1 = true)) :
    movieLoop nm l = none := by
  induction l with
  | nil => rfl
  | cons p rest ih =>
    obtain ⟨key, f⟩ := p
    simp only [movieLoop]
    have hp := h (key, f) (List.mem_cons_self _ _)
    rw [if_neg]
    · exact ih (fun q hq => h q (List.mem_cons_of_mem _ hq))
    · intro hc
      have hc' : f.info.ptype = .movie ∧ movieCond nm key = true := by
        simpa [Bool.and_eq_true, decide_eq_true_eq] using hc
      exact hp hc'

/-- Soundness of the episode loop: a returned record comes from an
entry of episode type with the requested season and episode and a
present normalized series name in substring relation with the query. -/
theorem episodeLoop_eq_ok_some {ns : String} {s e : Option Nat}
    {l : List (String × ScannedFile)} {fi : ScannedFile}
    (h : episodeLoop ns s e l = .ok (some fi)) :
    ∃ key fs, (key, fi) ∈ l ∧ fi.info.ptype = .episode ∧
      fi.info.season = s ∧ fi.info.episode = e ∧
      fi.info.normalized_series = some fs ∧
      (isSubstrList ns.data fs.data ∨ isSubstrList fs.data ns.data) := by
  induction l with
  | nil => simp [episodeLoop] at h
  | cons p rest ih =>
    obtain ⟨key, f⟩ := p
    simp only [episodeLoop] at h
    split at h
    next hc =>
      have hc' : f.info.ptype = .episode ∧ f.info.season = s ∧
          f.info.episode = e := by
        simpa [Bool.and_eq_true, decide_eq_true_eq, beq_iff_eq, and_assoc]
          using hc
      split at h
      next hns => exact Except.noConfusion h
      next fs hns =>
        split at h
        next hsub =>
          obtain rfl : f = fi := by simpa using h
          exact ⟨key, fs, List.mem_cons_self _ _, hc'.1, hc'.2.1, hc'.2.2, hns,
            by simpa using hsub⟩
        next hsub =>
          obtain ⟨key', fs', hmem, h1, h2, h3, h4, h5⟩ := ih h
          exact ⟨key', fs', List.mem_cons_of_mem _ hmem, h1, h2, h3, h4, h5⟩
    next hc =>
      obtain ⟨key', fs', hmem, h1, h2, h3, h4, h5⟩ := ih h
      exact ⟨key', fs', List.mem_cons_of_mem _ hmem, h1, h2, h3, h4, h5⟩

/-- Completeness of the episode loop: with no entry of episode type
matching the season and episode numbers, it returns `ok none`. -/
theorem episodeLoop_eq_ok_none {ns : String} {s e : Option Nat}
    {l : List (String × ScannedFile)}
    (h : ∀ p ∈ l, ¬(p.2.info.ptype = .episode ∧ p.2.info.season = s ∧
      p.2.info.episode = e)) :
    episodeLoop ns s e l = .ok none := by
  induction l with
  | nil => rfl
  | cons p rest ih =>
    obtain ⟨key, f⟩ := p
    simp only [episodeLoop]
    have hp := h (key, f) (List.mem_cons_self _ _)
    rw [if_neg]
    · exact ih (fun q hq => h q (List.mem_cons_of_mem _ hq))
    · intro hc
      have hc' : f.info.ptype = .episode ∧ f.info.season = s ∧
          f.info.episode = e := by
        simpa [Bool.and_eq_true, decide_eq_true_eq, beq_iff_eq, and_assoc]
          using hc
      exact hp hc'

/-- The episode loop raises only on an entry of episode type matching
the season and episode numbers but carrying no normalized series
name. -/
theorem episodeLoop_eq_error {ns : String} {s e : Option Nat}
    {l : List (String × ScannedFile)} {u : Unit}
    (h : episodeLoop ns s e l = .error u) :
    ∃ p ∈ l, p.2.info.ptype = .episode ∧ p.2.info.season = s ∧
      p.2.info.episode = e ∧ p.2.info.normalized_series = none := by
  induction l with
  | nil => simp [episodeLoop] at h
  | cons p rest ih =>
    obtain ⟨key, f⟩ := p
    simp only [episodeLoop] at h
    split at h
    next hc =>
      have hc' : f.info.ptype = .episode ∧ f.info.season = s ∧
          f.info.episode = e := by
        simpa [Bool.and_eq_true, decide_eq_true_eq, beq_iff_eq, and_assoc]
          using hc
      split at h
      next hns =>
        exact ⟨(key, f), List.mem_cons_self _ _, hc'.1, hc'.2.1, hc'.2.2, hns⟩
      next fs hns =>
        split at h
        next hsub => exact Except.noConfusion h
        next hsub =>
          obtain ⟨q, hq, h1, h2, h3, h4⟩ := ih h
          exact ⟨q, List.mem_cons_of_mem _ hq, h1, h2, h3, h4⟩
    next hc =>
      obtain ⟨q, hq, h1, h2, h3, h4⟩ := ih h
      exact ⟨q, List.mem_cons_of_mem _ hq, h1, h2, h3, h4⟩

/-- C9 (amended): `match_file_to_item` returns a movie entry only when
that entry has movie type, its normalized key and the item's normalized
name are in a substring relation (either direction), and their lengths
differ by less than 50% of the longer; it returns an episode entry only
when that entry has episode type with exactly equal season and episode
numbers and a recorded normalized series name in substring relation
with the item's; when no entry qualifies it returns none — except that
for a non-movie item it raises (a `TypeError` in the source) when the
first scanned entry matching the season and episode numbers carries no
normalized series name.  It reads but never mutates the scanned index
(it is embedded as a pure function of it). -/
theorem C9_match_file_sound :
    (∀ (scanned : List (String × ScannedFile)) (item : CatalogItem)
        (fi : ScannedFile),
      match_file_to_item scanned item "movie" = .ok (some fi) →
      ∃ key, (key, fi) ∈ scanned ∧ fi.info.ptype = .movie ∧
        (isSubstrList (normalize_filename_for_matching item.name).data key.data ∨
          isSubstrList key.data (normalize_filename_for_matching item.name).data) ∧
        2 * (max (normalize_filename_for_matching item.name).length key.length -
            min (normalize_filename_for_matching item.name).length key.length) <
          max (normalize_filename_for_matching item.name).length key.length) ∧
    (∀ (scanned : List (String × ScannedFile)) (item : CatalogItem)
        (ty : String) (fi : ScannedFile), ty ≠ "movie" →
      match_file_to_item scanned item ty = .ok (some fi) →
      ∃ key fs, (key, fi) ∈ scanned ∧ fi.info.ptype = .episode ∧
        fi.info.season = item.season ∧ fi.info.episode = item.episode_num ∧
        fi.info.normalized_series = some fs ∧
        (isSubstrList (normalize_filename_for_matching (itemSeriesName item)).data
            fs.data ∨
          isSubstrList fs.data
            (normalize_filename_for_matching (itemSeriesName item)).data)) ∧
    (∀ (scanned : List (String × ScannedFile)) (item : CatalogItem),
      (∀ p ∈ scanned, ¬(p.2.info.ptype = .movie ∧
        movieCond (normalize_filename_for_matching item.name) p.1 = true)) →
      match_file_to_item scanned item "movie" = .ok none) ∧
    (∀ (scanned : List (String × ScannedFile)) (item : CatalogItem)
        (ty : String), ty ≠ "movie" →
      (∀ p ∈ scanned, ¬(p.2.info.ptype = .episode ∧
        p.2.info.season = item.season ∧ p.2.info.episode = item.episode_num)) →
      match_file_to_item scanned item ty = .ok none) ∧
    (∀ (scanned : List (String × ScannedFile)) (item : CatalogItem)
        (ty : String) (u : Unit),
      match_file_to_item scanned item ty = .error u →
      ∃ p ∈ scanned, p.2.info.ptype = .episode ∧
        p.2.info.season = item.season ∧ p.2.info.episode = item.episode_num ∧
        p.2.info.normalized_series = none) := by
  refine ⟨?_, ?_, ?_, ?_, ?_⟩
  · intro scanned item fi h
    unfold match_file_to_item at h
    by_cases he : scanned.isEmpty
    · rw [if_pos he] at h
      simp at h
    · rw [if_neg he, if_pos rfl] at h
      have hml : movieLoop (normalize_filename_for_matching item.name) scanned =
          some fi := by
        simpa using h
      obtain ⟨key, hmem, hty, hcond⟩ := movieLoop_eq_some hml
      refine ⟨key, hmem, hty, ?_⟩
      unfold movieCond at hcond
      simpa [Bool.and_eq_true, Bool.or_eq_true, decide_eq_true_eq] using hcond
  · intro scanned item ty fi hty h
    unfold match_file_to_item at h
    by_cases he : scanned.isEmpty
    · rw [if_pos he] at h
      simp at h
    · rw [if_neg he, if_neg hty] at h
      split at h
      next hcond => exact episodeLoop_eq_ok_some h
      next hcond => simp at h
  · intro scanned item h
    unfold match_file_to_item
    by_cases he : scanned.isEmpty
    · rw [if_pos he]
    · rw [if_neg he, if_pos rfl, movieLoop_eq_none h]
  · intro scanned item ty hty h
    unfold match_file_to_item
    by_cases he : scanned.isEmpty
    · rw [if_pos he]
    · rw [if_neg he, if_neg hty]
      split
      next hcond => exact episodeLoop_eq_ok_none h
      next hcond => rfl
  · intro scanned item ty u h
    unfold match_file_to_item at h
    by_cases he : scanned.isEmpty
    · rw [if_pos he] at h
      exact Except.noConfusion h
    · rw [if_neg he] at h
      by_cases hty : ty = "movie"
      · rw [if_pos hty] at h
        exact Except.noConfusion h
      · rw [if_neg hty] at h
        split at h
        next hcond => exact episodeLoop_eq_error h
        next hcond => exact Except.noConfusion h

/-- The scanned-file record of the C9 witness. -/
def c9movieFile : ScannedFile :=
  ⟨extract_episode_info "Some Movie.mp4", "Some Movie.mp4", 700, 0⟩

/-- Witness for C9: the movie-soundness part applied to a concrete
one-entry index that matches. -/
theorem C9_match_file_sound_witness :
    ∃ key,
      (key, c9movieFile) ∈
        [(normalize_filename_for_matching "Some Movie.mp4", c9movieFile)] ∧
      c9movieFile.info.ptype = .movie ∧
      (isSubstrList (normalize_filename_for_matching "Some Movie").data key.data ∨
        isSubstrList key.data (normalize_filename_for_matching "Some Movie").data) ∧
      2 * (max (normalize_filename_for_matching "Some Movie").length key.length -
          min (normalize_filename_for_matching "Some Movie").length key.length) <
        max (normalize_filename_for_matching "Some Movie").length key.length :=
  C9_match_file_sound.1
    [(normalize_filename_for_matching "Some Movie.mp4", c9movieFile)]
    ⟨"Some Movie", none, none, none, none⟩ c9movieFile rfl

/-- The scanned entry of the C9 counterexample: an episode file parsed
without a series name (no '-' separator before `S01E02`). -/
def c9epFile : ScannedFile :=
  ⟨extract_episode_info "S01E02 Thing.mkv", "S01E02 Thing.mkv", 700, 0⟩

/-- Counterexample for C9 as stated: matching an episode item of
season 1 episode 2 against a scanned index holding that file raises
(`TypeError: argument of type 'NoneType' is not iterable` in the
source, from `normalized_series in None`) instead of returning an entry
or none. -/
theorem C9_counterexample :
    match_file_to_item
        [(normalize_filename_for_matching "S01E02 Thing.mkv", c9epFile)]
        ⟨"Thing", some "Thing", none, some 1, some 2⟩ "series" =
      .error () := rfl
